import Mathlib

/-!
Verification of the `simple_csv` crate's reader (`src/reader.rs`) and writer
(`src/writer.rs`) against its natural-language specification.

The embedding is shallow: bytes/characters are Lean `Char`s (the crate decodes
its input with a lossy UTF-8 transform before scanning, and the specification
treats decoding as an external collaborator), Rust `String`s are `List Char`,
the `BufRead` source is a list of remaining characters plus an optional pending
I/O error, and the `Write` sink is a list of accepted characters plus an
optional failure point.  Rust's `read_until('\n')` is content-driven splitting
at the first newline; the reader loop, which in Rust runs until end of row or
end of input, is given explicit fuel `data.length + 1`, which is always enough
because every successful read consumes at least one character.
-/

namespace SimpleCsv

/-- The five scanner states of `ParseState` in `src/reader.rs`. -/
inductive ParseState where
  | Neutral
  | InField
  | InQuotedField
  | EncounteredQuoteInQuotedField
  | EndOfRow
deriving DecidableEq, Repr

/-- Structure `SimpleCsvReaderOptions` from `src/reader.rs`. -/
structure SimpleCsvReaderOptions where
  delimiter : Char
  text_enclosure : Char
deriving DecidableEq, Repr

/-- Default reader options: comma delimiter, double-quote enclosure. -/
def defaultReaderOptions : SimpleCsvReaderOptions :=
  { delimiter := ',', text_enclosure := '"' }

/-- The `BufRead` source: the characters not yet consumed, plus an optional
pending I/O failure (an error code) that `read_until` reports once the data
is exhausted. -/
structure Source where
  data : List Char
  err : Option Nat
deriving DecidableEq, Repr

/-- The reader, mirroring the fields of `SimpleCsvReader` (the transient
`line_bytes` buffer is passed to `process_line` directly). -/
structure SimpleCsvReader where
  state : ParseState
  row_data : List (List Char)
  column_buffer : List Char
  input_reader : Source
  options : SimpleCsvReaderOptions
deriving DecidableEq, Repr

/-- Helper `new_column`: move the accumulated column buffer into the row and return
the scanner to `Neutral`. -/
def new_column (r : SimpleCsvReader) : SimpleCsvReader :=
  { r with
    row_data := r.row_data ++ [r.column_buffer]
    column_buffer := []
    state := ParseState.Neutral }

/-- One character step of the `match self.state` scanner in `process_line`.
Guard order follows the Rust `match` arms exactly.  The `EndOfRow` case is
unreachable in actual runs (the Rust code asserts this); it is modelled as the
identity. -/
def process_char (r : SimpleCsvReader) (c : Char) : SimpleCsvReader :=
  match r.state with
  | ParseState.Neutral =>
      if c = r.options.text_enclosure then
        { r with state := ParseState.InQuotedField }
      else if c = r.options.delimiter then
        { r with row_data := r.row_data ++ [[]] }
      else if c = '\n' then
        { new_column r with state := ParseState.EndOfRow }
      else if c = '\r' then
        r
      else
        { r with column_buffer := r.column_buffer ++ [c], state := ParseState.InField }
  | ParseState.InQuotedField =>
      if c = r.options.text_enclosure then
        { r with state := ParseState.EncounteredQuoteInQuotedField }
      else
        { r with column_buffer := r.column_buffer ++ [c] }
  | ParseState.InField =>
      if c = r.options.delimiter then
        new_column r
      else if c = '\n' then
        { new_column r with state := ParseState.EndOfRow }
      else if c = '\r' then
        r
      else
        { r with column_buffer := r.column_buffer ++ [c] }
  | ParseState.EncounteredQuoteInQuotedField =>
      if c = r.options.text_enclosure then
        { r with column_buffer := r.column_buffer ++ [c], state := ParseState.InQuotedField }
      else if c = r.options.delimiter then
        new_column r
      else if c = '\n' then
        { new_column r with state := ParseState.EndOfRow }
      else if c = '\r' then
        r
      else
        { r with column_buffer := r.column_buffer ++ [c], state := ParseState.InField }
  | ParseState.EndOfRow => r

/-- Function `process_line`: scan every character of the freshly read chunk. -/
def process_line (r : SimpleCsvReader) (line : List Char) : SimpleCsvReader :=
  line.foldl process_char r

/-- Model of `BufRead::read_until('\n')` on pure data: the chunk up to and including the
first newline (or all remaining characters), and the rest. -/
def splitAtNewline : List Char → List Char × List Char
  | [] => ([], [])
  | c :: cs =>
      if c = '\n' then ([c], cs)
      else
        let p := splitAtNewline cs
        (c :: p.1, p.2)

/-- Model of `read_until` on the full source: data first; once the data is
exhausted a pending error is reported (and consumed); otherwise EOF (an empty
chunk). -/
def read_until (s : Source) : Except Nat (List Char) × Source :=
  match s.data with
  | [] =>
      match s.err with
      | some e => (Except.error e, { s with err := none })
      | none => (Except.ok [], s)
  | c :: cs =>
      let p := splitAtNewline (c :: cs)
      (Except.ok p.1, { s with data := p.2 })

/-- The `loop` inside `next_row`, with explicit fuel (the Rust loop terminates
because every successful read consumes at least one byte; `next_row` passes
`data.length + 1`, which the lemmas below show is always sufficient). -/
def next_row_loop : Nat → SimpleCsvReader → Nat →
    Option (Except Nat (List (List Char))) × SimpleCsvReader
  | 0, r, _ => (none, r)
  | Nat.succ fuel, r, line_count =>
      match read_until r.input_reader with
      | (Except.error e, s') => (some (Except.error e), { r with input_reader := s' })
      | (Except.ok chunk, s') =>
          if chunk.isEmpty then
            -- EOF: no data read this iteration
            if line_count > 0 then
              let r' := if r.column_buffer.isEmpty then r else new_column r
              (some (Except.ok r'.row_data), r')
            else
              (none, r)
          else
            let r' := process_line { r with input_reader := s' } chunk
            if r'.state = ParseState.EndOfRow then
              (some (Except.ok r'.row_data), r')
            else
              next_row_loop fuel r' (line_count + 1)

/-- Function `next_row`: reset the row buffer and scanner state, then run the read
loop.  (The column buffer is deliberately not reset, matching the Rust
code.) -/
def next_row (r : SimpleCsvReader) :
    Option (Except Nat (List (List Char))) × SimpleCsvReader :=
  next_row_loop (r.input_reader.data.length + 1)
    { r with row_data := [], state := ParseState.Neutral } 0

/-- A fresh reader over the given input with default options, as built by
`SimpleCsvReader::new`. -/
def mkReader (input : List Char) : SimpleCsvReader :=
  { state := ParseState.Neutral
    row_data := []
    column_buffer := []
    input_reader := { data := input, err := none }
    options := defaultReaderOptions }

/-- Repeatedly call `next_row`, collecting the successful rows, stopping at
`None` or at an error (the `Iterator` impl surfaces at most one error and this
development only evaluates it on error-free sources).  Fuel bounds the number
of calls. -/
def readAllRows : Nat → SimpleCsvReader → List (List (List Char))
  | 0, _ => []
  | Nat.succ fuel, r =>
      match next_row r with
      | (some (Except.ok row), r') => row :: readAllRows fuel r'
      | _ => []

/-- Inductive `NewlineType` from `src/writer.rs`. -/
inductive NewlineType where
  | UnixStyle
  | WindowsStyle
  | Custom (s : List Char)
deriving DecidableEq, Repr

/-- The characters the writer emits for the configured newline type. -/
def newlineChars : NewlineType → List Char
  | NewlineType.UnixStyle => ['\n']
  | NewlineType.WindowsStyle => ['\r', '\n']
  | NewlineType.Custom s => s

/-- Structure `SimpleCsvWriterOptions` from `src/writer.rs`. -/
structure SimpleCsvWriterOptions where
  delimiter : Char
  text_enclosure : Char
  newline_type : NewlineType
deriving DecidableEq, Repr

/-- Default writer options: comma, double quote, Unix newline. -/
def defaultWriterOptions : SimpleCsvWriterOptions :=
  { delimiter := ',', text_enclosure := '"', newline_type := NewlineType.UnixStyle }

/-- The `Write` sink: the characters accepted so far, plus an optional failure
point.  With `failAt = some n` the sink errors on any write that would push the
accepted length past `n`, accepting the characters that still fit (Rust's
`write_all` may hand over part of the buffer before the failing call). -/
structure Sink where
  written : List Char
  failAt : Option Nat
deriving DecidableEq, Repr

/-- One `write_all`/`write!` call on the sink. -/
def Sink.push (s : Sink) (bs : List Char) : Except Nat Unit × Sink :=
  match s.failAt with
  | none => (Except.ok (), { s with written := s.written ++ bs })
  | some n =>
      if s.written.length + bs.length ≤ n then
        (Except.ok (), { s with written := s.written ++ bs })
      else
        (Except.error 0, { s with written := s.written ++ bs.take (n - s.written.length) })

/-- The writer, mirroring the fields of `SimpleCsvWriter`. -/
structure SimpleCsvWriter where
  options : SimpleCsvWriterOptions
  writer : Sink
  row_written : Bool
deriving DecidableEq, Repr

/-- Model of Rust's `try!` operator on sink operations: on error, return it
(with the sink as the failing operation left it); on success, continue. -/
def tryThen (x : Except Nat Unit × Sink) (k : Sink → Except Nat Unit × Sink) :
    Except Nat Unit × Sink :=
  match x with
  | (Except.error e, s') => (Except.error e, s')
  | (Except.ok _, s') => k s'

/-- The quoted phase of the field loop in `SimpleCsvWriter::write`: once
`is_quoted` is set, each remaining character is written (doubling the
enclosure character), and the closing enclosure is written at the end. -/
def write_quoted_tail (q : Char) (s : Sink) : List Char → Except Nat Unit × Sink
  | [] => s.push [q]
  | c :: cs =>
      tryThen (if c = q then s.push [c, c] else s.push [c]) fun s' =>
        write_quoted_tail q s' cs

/-- The unquoted phase of the field loop: nothing is emitted while scanning;
at the first character equal to the enclosure, the delimiter, `'\n'` or
`'\r'`, the opening enclosure and the already-scanned prefix (`column[..byte_index]`)
are emitted and the loop re-processes that character in the quoted phase (the
Rust `continue`); if no such character occurs the whole column is written
verbatim. -/
def write_field_from (q d : Char) (column : List Char) (s : Sink) :
    List Char → Nat → Except Nat Unit × Sink
  | [], _ => s.push column
  | c :: cs, i =>
      if c = q ∨ c = d ∨ c = '\n' ∨ c = '\r' then
        tryThen (s.push [q]) fun s' =>
          tryThen (s'.push (column.take i)) fun s'' =>
            write_quoted_tail q s'' (c :: cs)
      else
        write_field_from q d column s cs (i + 1)

/-- The per-column loop of `SimpleCsvWriter::write`: a delimiter before every
column except the first (`col_number != 0`), then the field encoder. -/
def write_columns (q d : Char) (s : Sink) :
    List (List Char) → Nat → Except Nat Unit × Sink
  | [], _ => (Except.ok (), s)
  | column :: rest, col_number =>
      tryThen (if col_number = 0 then (Except.ok (), s) else s.push [d]) fun s' =>
        tryThen (write_field_from q d column s' column 0) fun s'' =>
          write_columns q d s'' rest (col_number + 1)

/-- Function `SimpleCsvWriter::write`: the configured newline first when a row has
already been written, then the columns; `row_written` is set only on full
success (the Rust early returns skip the assignment). -/
def SimpleCsvWriter.write (w : SimpleCsvWriter) (row : List (List Char)) :
    Except Nat Unit × SimpleCsvWriter :=
  match tryThen (if w.row_written then w.writer.push (newlineChars w.options.newline_type)
                 else (Except.ok (), w.writer)) fun s' =>
          write_columns w.options.text_enclosure w.options.delimiter s' row 0 with
  | (Except.error e, s'') => (Except.error e, { w with writer := s'' })
  | (Except.ok _, s'') =>
      (Except.ok (), { w with writer := s'', row_written := true })

/-- Function `SimpleCsvWriter::write_all`: write each row in order, stopping at the
first error. -/
def SimpleCsvWriter.write_all (w : SimpleCsvWriter) :
    List (List (List Char)) → Except Nat Unit × SimpleCsvWriter
  | [] => (Except.ok (), w)
  | row :: rest =>
      match w.write row with
      | (Except.error e, w') => (Except.error e, w')
      | (Except.ok _, w') => w'.write_all rest

/-- A fresh writer over the given sink with default options, as built by
`SimpleCsvWriter::new`. -/
def mkWriter (s : Sink) : SimpleCsvWriter :=
  { options := defaultWriterOptions, writer := s, row_written := false }

/-! ### Specification-level descriptions of the writer's output

These definitions follow the specification's words ("the field is wrapped in
the quote character if and only if it contains the quote character, the
delimiter, `\n`, or `\r`, with every embedded quote character doubled") and
are proved below to describe exactly what the embedded writer emits. -/

/-- Predicate: character `c` forces quoting of a field (it is the enclosure,
the delimiter, a newline or a carriage return). -/
def isSpecial (q d c : Char) : Prop :=
  c = q ∨ c = d ∨ c = '\n' ∨ c = '\r'

instance (q d c : Char) : Decidable (isSpecial q d c) := by
  unfold isSpecial; infer_instance

/-- Predicate: the field contains a character that forces quoting. -/
def needsQuote (q d : Char) (f : List Char) : Prop :=
  ∃ c ∈ f, isSpecial q d c

instance (q d : Char) (f : List Char) : Decidable (needsQuote q d f) := by
  unfold needsQuote; infer_instance

/-- Double every occurrence of the enclosure character. -/
def escapeQuotes (q : Char) : List Char → List Char
  | [] => []
  | c :: cs => (if c = q then [c, c] else [c]) ++ escapeQuotes q cs

/-- The characters the writer emits for one field: enclosed with doubled
quotes when the field needs quoting, verbatim otherwise. -/
def encodeField (q d : Char) (f : List Char) : List Char :=
  if needsQuote q d f then q :: (escapeQuotes q f ++ [q]) else f

/-- The characters emitted for the non-first fields of a row: a delimiter
before each encoded field. -/
def rowTailChars (q d : Char) : List (List Char) → List Char
  | [] => []
  | f :: fs => d :: (encodeField q d f ++ rowTailChars q d fs)

/-- The characters the writer emits for one whole row. -/
def rowChars (q d : Char) : List (List Char) → List Char
  | [] => []
  | f :: fs => encodeField q d f ++ rowTailChars q d fs

/-- The characters emitted for the non-first rows: the newline before each
row's characters. -/
def csvTailChars (q d : Char) (nl : List Char) : List (List (List Char)) → List Char
  | [] => []
  | row :: rows => nl ++ (rowChars q d row ++ csvTailChars q d nl rows)

/-- The characters a fresh writer emits for a whole row list. -/
def csvChars (q d : Char) (nl : List Char) : List (List (List Char)) → List Char
  | [] => []
  | row :: rows => rowChars q d row ++ csvTailChars q d nl rows

/-! ### Character-level reference scanner for the reader

The chunked reading loop of `next_row` is proved equivalent to scanning the
remaining characters one by one until the scanner reaches `EndOfRow`. -/

/-- Scan characters one at a time; stop right after the scanner enters
`EndOfRow`, returning the unconsumed rest. -/
def scanChars (r : SimpleCsvReader) : List Char → SimpleCsvReader × Option (List Char)
  | [] => (r, none)
  | c :: cs =>
      let r' := process_char r c
      if r'.state = ParseState.EndOfRow then (r', some cs) else scanChars r' cs

/-- Predicate: no newline occurs before the last character (the shape of every
chunk produced by `splitAtNewline`). -/
def noNlButLast : List Char → Prop
  | [] => True
  | [_] => True
  | c :: cs => c ≠ '\n' ∧ noNlButLast cs

/-- The row-start reset performed at the top of `next_row` (the column buffer
is not reset). -/
def resetRow (r : SimpleCsvReader) : SimpleCsvReader :=
  { r with row_data := [], state := ParseState.Neutral }

/-! ### Writer lemmas: what the embedded writer emits on a non-failing sink -/

theorem escapeQuotes_append (q : Char) (a b : List Char) :
    escapeQuotes q (a ++ b) = escapeQuotes q a ++ escapeQuotes q b := by
  induction a with
  | nil => simp [escapeQuotes]
  | cons c cs ih => simp [escapeQuotes, ih]

theorem escapeQuotes_of_no_quote (q : Char) (l : List Char)
    (h : ∀ c ∈ l, c ≠ q) : escapeQuotes q l = l := by
  induction l with
  | nil => rfl
  | cons c cs ih =>
      have hc : c ≠ q := h c (List.mem_cons_self c cs)
      simp [escapeQuotes, hc, ih fun x hx => h x (List.mem_cons_of_mem c hx)]

theorem Sink.push_none (w bs : List Char) :
    Sink.push ⟨w, none⟩ bs = (Except.ok (), ⟨w ++ bs, none⟩) := rfl

theorem write_quoted_tail_none (q : Char) (f : List Char) :
    ∀ w : List Char, write_quoted_tail q ⟨w, none⟩ f
      = (Except.ok (), ⟨w ++ (escapeQuotes q f ++ [q]), none⟩) := by
  induction f with
  | nil => intro w; simp [write_quoted_tail, Sink.push_none, escapeQuotes]
  | cons c cs ih =>
      intro w
      by_cases hc : c = q <;>
        simp [write_quoted_tail, tryThen, Sink.push_none, escapeQuotes, hc, ih]

theorem write_field_from_none (q d : Char) :
    ∀ (cs pre w : List Char), (∀ c ∈ pre, ¬ isSpecial q d c) →
      write_field_from q d (pre ++ cs) ⟨w, none⟩ cs pre.length
        = (Except.ok (), ⟨w ++ encodeField q d (pre ++ cs), none⟩) := by
  intro cs
  induction cs with
  | nil =>
      intro pre w hpre
      have hnq : ¬ needsQuote q d pre := fun ⟨c, hc, hsp⟩ => hpre c hc hsp
      simp [write_field_from, Sink.push_none, encodeField, hnq]
  | cons c cs ih =>
      intro pre w hpre
      by_cases hsp : isSpecial q d c
      · have hq : needsQuote q d (pre ++ c :: cs) :=
          ⟨c, by simp, hsp⟩
        have htake : (pre ++ c :: cs).take pre.length = pre := List.take_left pre (c :: cs)
        have hpreq : ∀ x ∈ pre, x ≠ q := fun x hx hxq =>
          hpre x hx (Or.inl hxq)
        simp only [write_field_from, isSpecial, hsp, if_pos (by exact hsp : c = q ∨ c = d ∨ c = '\n' ∨ c = '\r')]
        simp [tryThen, Sink.push_none, htake, write_quoted_tail_none, encodeField, hq,
          escapeQuotes_append, escapeQuotes_of_no_quote q pre hpreq]
      · have hpre' : ∀ x ∈ pre ++ [c], ¬ isSpecial q d x := by
          intro x hx
          rcases List.mem_append.mp hx with h | h
          · exact hpre x h
          · rcases List.mem_singleton.mp h with rfl; exact hsp
        have := ih (pre ++ [c]) w hpre'
        rw [List.append_assoc, List.singleton_append] at this
        simp only [List.length_append, List.length_singleton] at this
        simp only [write_field_from, if_neg (by exact hsp : ¬ (c = q ∨ c = d ∨ c = '\n' ∨ c = '\r'))]
        exact this

theorem write_columns_succ_none (q d : Char) :
    ∀ (cols : List (List Char)) (w : List Char) (n : Nat),
      write_columns q d ⟨w, none⟩ cols (n + 1)
        = (Except.ok (), ⟨w ++ rowTailChars q d cols, none⟩) := by
  intro cols
  induction cols with
  | nil => intro w n; simp [write_columns, rowTailChars]
  | cons col rest ih =>
      intro w n
      have hf := write_field_from_none q d col [] (w ++ [d]) (by simp)
      simp only [List.nil_append, List.length_nil] at hf
      simp [write_columns, tryThen, Sink.push_none, hf, ih, rowTailChars]

theorem write_columns_zero_none (q d : Char) (cols : List (List Char)) (w : List Char) :
    write_columns q d ⟨w, none⟩ cols 0
      = (Except.ok (), ⟨w ++ rowChars q d cols, none⟩) := by
  cases cols with
  | nil => simp [write_columns, rowChars]
  | cons col rest =>
      have hf := write_field_from_none q d col [] w (by simp)
      simp only [List.nil_append, List.length_nil] at hf
      simp [write_columns, tryThen, hf, write_columns_succ_none, rowChars]

theorem write_none (opts : SimpleCsvWriterOptions) (rw : Bool) (row : List (List Char))
    (w : List Char) :
    SimpleCsvWriter.write ⟨opts, ⟨w, none⟩, rw⟩ row
      = (Except.ok (),
         ⟨opts,
          ⟨w ++ ((if rw then newlineChars opts.newline_type else [])
              ++ rowChars opts.text_enclosure opts.delimiter row), none⟩,
          true⟩) := by
  cases rw <;>
    simp [SimpleCsvWriter.write, tryThen, Sink.push_none, write_columns_zero_none]

theorem write_all_written_none (opts : SimpleCsvWriterOptions) :
    ∀ (rows : List (List (List Char))) (w : List Char),
      SimpleCsvWriter.write_all ⟨opts, ⟨w, none⟩, true⟩ rows
        = (Except.ok (),
           ⟨opts,
            ⟨w ++ csvTailChars opts.text_enclosure opts.delimiter
                (newlineChars opts.newline_type) rows, none⟩,
            true⟩) := by
  intro rows
  induction rows with
  | nil => intro w; simp [SimpleCsvWriter.write_all, csvTailChars]
  | cons row rest ih =>
      intro w
      simp [SimpleCsvWriter.write_all, write_none, ih, csvTailChars]

theorem write_all_fresh_none (opts : SimpleCsvWriterOptions)
    (rows : List (List (List Char))) (w : List Char) :
    SimpleCsvWriter.write_all ⟨opts, ⟨w, none⟩, false⟩ rows
      = (Except.ok (),
         ⟨opts,
          ⟨w ++ csvChars opts.text_enclosure opts.delimiter
              (newlineChars opts.newline_type) rows, none⟩,
          !rows.isEmpty⟩) := by
  cases rows with
  | nil => simp [SimpleCsvWriter.write_all, csvChars]
  | cons row rest =>
      simp [SimpleCsvWriter.write_all, write_none, write_all_written_none, csvChars]

/-! ### Reader lemmas: the chunked loop equals a character-level scan -/

theorem new_column_source (r : SimpleCsvReader) (s : Source) :
    new_column { r with input_reader := s } = { new_column r with input_reader := s } := rfl

theorem process_char_source (r : SimpleCsvReader) (c : Char) (s : Source) :
    process_char { r with input_reader := s } c
      = { process_char r c with input_reader := s } := by
  cases r with
  | mk st rows buf src opts =>
      cases st <;> simp only [process_char, new_column] <;>
        (first
          | rfl
          | (split_ifs <;> rfl))

theorem process_line_source (r : SimpleCsvReader) (l : List Char) (s : Source) :
    process_line { r with input_reader := s } l
      = { process_line r l with input_reader := s } := by
  induction l generalizing r with
  | nil => rfl
  | cons c cs ih =>
      simp only [process_line, List.foldl_cons] at *
      rw [process_char_source, ih]

theorem scanChars_source (r : SimpleCsvReader) (l : List Char) (s : Source) :
    scanChars { r with input_reader := s } l
      = ({ (scanChars r l).1 with input_reader := s }, (scanChars r l).2) := by
  induction l generalizing r with
  | nil => rfl
  | cons c cs ih =>
      simp only [scanChars]
      rw [process_char_source]
      by_cases h : (process_char r c).state = ParseState.EndOfRow <;> simp [h, ih]

theorem process_char_state_ne_EndOfRow (r : SimpleCsvReader) (c : Char)
    (hc : c ≠ '\n') (hs : r.state ≠ ParseState.EndOfRow) :
    (process_char r c).state ≠ ParseState.EndOfRow := by
  cases r with
  | mk st rows buf src opts =>
      cases st <;> simp only [process_char, new_column] <;>
        (try split_ifs) <;> simp_all

theorem splitAtNewline_append (l : List Char) :
    (splitAtNewline l).1 ++ (splitAtNewline l).2 = l := by
  induction l with
  | nil => rfl
  | cons c cs ih => by_cases h : c = '\n' <;> simp [splitAtNewline, h, ih]

theorem splitAtNewline_fst_ne_nil (c : Char) (cs : List Char) :
    (splitAtNewline (c :: cs)).1 ≠ [] := by
  by_cases h : c = '\n' <;> simp [splitAtNewline, h]

theorem splitAtNewline_noNl (l : List Char) : noNlButLast (splitAtNewline l).1 := by
  induction l with
  | nil => trivial
  | cons c cs ih =>
      by_cases h : c = '\n'
      · simp [splitAtNewline, h, noNlButLast]
      · cases hcs : (splitAtNewline cs).1 with
        | nil => simp [splitAtNewline, h, hcs, noNlButLast]
        | cons d ds =>
            rw [hcs] at ih
            simp [splitAtNewline, h, hcs, noNlButLast, ih]

theorem scanChars_chunk (chunk : List Char) :
    ∀ (r : SimpleCsvReader) (rest : List Char), noNlButLast chunk →
      r.state ≠ ParseState.EndOfRow →
      scanChars r (chunk ++ rest)
        = (if (process_line r chunk).state = ParseState.EndOfRow
           then (process_line r chunk, some rest)
           else scanChars (process_line r chunk) rest) := by
  induction chunk with
  | nil =>
      intro r rest _ hs
      simp [process_line, scanChars, hs]
  | cons c cs ih =>
      intro r rest hok hs
      cases cs with
      | nil =>
          by_cases h1 : (process_char r c).state = ParseState.EndOfRow <;>
            simp [scanChars, process_line, h1]
      | cons c2 cs2 =>
          obtain ⟨hc, hok2⟩ : c ≠ '\n' ∧ noNlButLast (c2 :: cs2) := hok
          have h1 : (process_char r c).state ≠ ParseState.EndOfRow :=
            process_char_state_ne_EndOfRow r c hc hs
          have hstep := ih (process_char r c) rest hok2 h1
          simp only [List.cons_append, scanChars, h1, if_neg h1]
          simpa [process_line] using hstep

/-- Character-level description of `next_row`: reset the row, scan the
remaining characters until `EndOfRow`; on end of data report a pending error,
or return the (possibly flushed) row if anything was read, or `none`. -/
def next_row_spec (r : SimpleCsvReader) :
    Option (Except Nat (List (List Char))) × SimpleCsvReader :=
  match scanChars (resetRow r) r.input_reader.data, r.input_reader.err with
  | (r1, some rest), _ =>
      (some (Except.ok r1.row_data),
       { r1 with input_reader := { data := rest, err := r.input_reader.err } })
  | (r1, none), some e =>
      (some (Except.error e), { r1 with input_reader := { data := [], err := none } })
  | (r1, none), none =>
      if r.input_reader.data.isEmpty then (none, resetRow r)
      else
        (some (Except.ok (if r1.column_buffer.isEmpty then r1 else new_column r1).row_data),
         { (if r1.column_buffer.isEmpty then r1 else new_column r1) with
           input_reader := { data := [], err := none } })

theorem next_row_loop_eq (fuel : Nat) :
    ∀ (r : SimpleCsvReader) (lc : Nat),
      r.input_reader.data.length < fuel → r.state ≠ ParseState.EndOfRow →
      next_row_loop fuel r lc =
        match scanChars r r.input_reader.data, r.input_reader.err with
        | (r1, some rest), _ =>
            (some (Except.ok r1.row_data),
             { r1 with input_reader := { data := rest, err := r.input_reader.err } })
        | (r1, none), some e =>
            (some (Except.error e), { r1 with input_reader := { data := [], err := none } })
        | (r1, none), none =>
            if lc = 0 ∧ r.input_reader.data.isEmpty then (none, r)
            else
              (some (Except.ok (if r1.column_buffer.isEmpty then r1 else new_column r1).row_data),
               { (if r1.column_buffer.isEmpty then r1 else new_column r1) with
                 input_reader := { data := [], err := none } }) := by
  induction fuel with
  | zero => intro r lc hf; exact absurd hf (Nat.not_lt_zero _)
  | succ fuel ih =>
      intro r lc hf hs
      obtain ⟨st, rows, buf, ⟨dat, err⟩, opts⟩ := r
      cases dat with
      | nil =>
          cases err with
          | none =>
              cases lc with
              | zero => simp [next_row_loop, read_until, scanChars]
              | succ n =>
                  by_cases hb : buf = [] <;>
                    simp [next_row_loop, read_until, scanChars, hb, new_column]
          | some e => simp [next_row_loop, read_until, scanChars]
      | cons c cs =>
          have happ : (splitAtNewline (c :: cs)).1 ++ (splitAtNewline (c :: cs)).2 = c :: cs :=
            splitAtNewline_append (c :: cs)
          have hne : (splitAtNewline (c :: cs)).1 ≠ [] := splitAtNewline_fst_ne_nil c cs
          have hnl : noNlButLast (splitAtNewline (c :: cs)).1 := splitAtNewline_noNl (c :: cs)
          have hlen : (splitAtNewline (c :: cs)).2.length < fuel := by
            have h1 := congrArg List.length happ
            simp only [List.length_append, List.length_cons] at h1
            have h2 : 0 < (splitAtNewline (c :: cs)).1.length := List.length_pos.mpr hne
            simp only [List.length_cons] at hf
            omega
          have hbody := scanChars_chunk (splitAtNewline (c :: cs)).1
            ⟨st, rows, buf, ⟨c :: cs, err⟩, opts⟩ (splitAtNewline (c :: cs)).2 hnl hs
          rw [happ] at hbody
          have hsrc := process_line_source ⟨st, rows, buf, ⟨c :: cs, err⟩, opts⟩
            (splitAtNewline (c :: cs)).1 ⟨(splitAtNewline (c :: cs)).2, err⟩
          simp only [next_row_loop, read_until, List.isEmpty_eq_true, hne, if_neg hne]
          rw [hsrc]
          by_cases hE : (process_line ⟨st, rows, buf, ⟨c :: cs, err⟩, opts⟩
              (splitAtNewline (c :: cs)).1).state = ParseState.EndOfRow
          · rw [if_pos hE] at hbody
            rw [hbody]
            simp [hE]
          · rw [if_neg hE] at hbody
            simp only [hE, if_neg hE]
            have hrec := ih { process_line ⟨st, rows, buf, ⟨c :: cs, err⟩, opts⟩
                (splitAtNewline (c :: cs)).1 with
                input_reader := ⟨(splitAtNewline (c :: cs)).2, err⟩ } (lc + 1) hlen hE
            rw [hrec]
            rw [scanChars_source]
            rw [hbody]
            rcases hq : scanChars (process_line ⟨st, rows, buf, ⟨c :: cs, err⟩, opts⟩
              (splitAtNewline (c :: cs)).1) (splitAtNewline (c :: cs)).2 with ⟨q1, o⟩
            cases o with
            | some rest => cases err <;> rfl
            | none =>
                cases err with
                | some e => rfl
                | none =>
                    by_cases hb : q1.column_buffer = [] <;>
                      simp [hb, new_column_source, new_column]

theorem next_row_eq_spec (r : SimpleCsvReader) : next_row r = next_row_spec r := by
  have h := next_row_loop_eq (r.input_reader.data.length + 1) (resetRow r) 0
    (Nat.lt_succ_self _) (by simp [resetRow])
  rw [show next_row r
      = next_row_loop (r.input_reader.data.length + 1) (resetRow r) 0 from rfl, h]
  simp [next_row_spec, resetRow]

/-! ### Scanning writer output with default options -/

/-- Shorthand for a reader with default options. -/
def dfltR (st : ParseState) (rows : List (List Char)) (buf : List Char) (src : Source) :
    SimpleCsvReader :=
  ⟨st, rows, buf, src, defaultReaderOptions⟩

theorem step_Neutral_quote (rows : List (List Char)) (buf : List Char) (src : Source) :
    process_char (dfltR ParseState.Neutral rows buf src) '"'
      = dfltR ParseState.InQuotedField rows buf src := by
  simp [process_char, dfltR, defaultReaderOptions]

theorem step_Neutral_delim (rows : List (List Char)) (buf : List Char) (src : Source) :
    process_char (dfltR ParseState.Neutral rows buf src) ','
      = dfltR ParseState.Neutral (rows ++ [[]]) buf src := by
  simp [process_char, dfltR, defaultReaderOptions]

theorem step_Neutral_nl (rows : List (List Char)) (buf : List Char) (src : Source) :
    process_char (dfltR ParseState.Neutral rows buf src) '\n'
      = dfltR ParseState.EndOfRow (rows ++ [buf]) [] src := by
  simp [process_char, new_column, dfltR, defaultReaderOptions]

theorem step_Neutral_other (rows : List (List Char)) (buf : List Char) (src : Source)
    (c : Char) (h1 : c ≠ '"') (h2 : c ≠ ',') (h3 : c ≠ '\n') (h4 : c ≠ '\r') :
    process_char (dfltR ParseState.Neutral rows buf src) c
      = dfltR ParseState.InField rows (buf ++ [c]) src := by
  simp [process_char, dfltR, defaultReaderOptions, h1, h2, h3, h4]

theorem step_InField_delim (rows : List (List Char)) (buf : List Char) (src : Source) :
    process_char (dfltR ParseState.InField rows buf src) ','
      = dfltR ParseState.Neutral (rows ++ [buf]) [] src := by
  simp [process_char, new_column, dfltR, defaultReaderOptions]

theorem step_InField_nl (rows : List (List Char)) (buf : List Char) (src : Source) :
    process_char (dfltR ParseState.InField rows buf src) '\n'
      = dfltR ParseState.EndOfRow (rows ++ [buf]) [] src := by
  simp [process_char, new_column, dfltR, defaultReaderOptions]

theorem step_InField_other (rows : List (List Char)) (buf : List Char) (src : Source)
    (c : Char) (h2 : c ≠ ',') (h3 : c ≠ '\n') (h4 : c ≠ '\r') :
    process_char (dfltR ParseState.InField rows buf src) c
      = dfltR ParseState.InField rows (buf ++ [c]) src := by
  simp [process_char, dfltR, defaultReaderOptions, h2, h3, h4]

theorem step_IQF_quote (rows : List (List Char)) (buf : List Char) (src : Source) :
    process_char (dfltR ParseState.InQuotedField rows buf src) '"'
      = dfltR ParseState.EncounteredQuoteInQuotedField rows buf src := by
  simp [process_char, dfltR, defaultReaderOptions]

theorem step_IQF_other (rows : List (List Char)) (buf : List Char) (src : Source)
    (c : Char) (h1 : c ≠ '"') :
    process_char (dfltR ParseState.InQuotedField rows buf src) c
      = dfltR ParseState.InQuotedField rows (buf ++ [c]) src := by
  simp [process_char, dfltR, defaultReaderOptions, h1]

theorem step_Enc_quote (rows : List (List Char)) (buf : List Char) (src : Source) :
    process_char (dfltR ParseState.EncounteredQuoteInQuotedField rows buf src) '"'
      = dfltR ParseState.InQuotedField rows (buf ++ ['"']) src := by
  simp [process_char, dfltR, defaultReaderOptions]

theorem step_Enc_delim (rows : List (List Char)) (buf : List Char) (src : Source) :
    process_char (dfltR ParseState.EncounteredQuoteInQuotedField rows buf src) ','
      = dfltR ParseState.Neutral (rows ++ [buf]) [] src := by
  simp [process_char, new_column, dfltR, defaultReaderOptions]

theorem step_Enc_nl (rows : List (List Char)) (buf : List Char) (src : Source) :
    process_char (dfltR ParseState.EncounteredQuoteInQuotedField rows buf src) '\n'
      = dfltR ParseState.EndOfRow (rows ++ [buf]) [] src := by
  simp [process_char, new_column, dfltR, defaultReaderOptions]

theorem scan_clean_InField (f : List Char) :
    ∀ (rows : List (List Char)) (buf : List Char) (src : Source) (more : List Char),
      (∀ c ∈ f, ¬ isSpecial '"' ',' c) →
      scanChars (dfltR ParseState.InField rows buf src) (f ++ more)
        = scanChars (dfltR ParseState.InField rows (buf ++ f) src) more := by
  induction f with
  | nil => intro rows buf src more _; simp
  | cons c cs ih =>
      intro rows buf src more h
      have hc := h c (by simp)
      simp only [isSpecial, not_or] at hc
      obtain ⟨h1, h2, h3, h4⟩ := hc
      rw [List.cons_append]
      simp only [scanChars, step_InField_other rows buf src c h2 h3 h4]
      rw [if_neg (by simp [dfltR])]
      rw [ih rows (buf ++ [c]) src more fun x hx => h x (by simp [hx])]
      simp

theorem scan_clean_Neutral (f : List Char) (rows : List (List Char)) (buf : List Char)
    (src : Source) (more : List Char)
    (h : ∀ c ∈ f, ¬ isSpecial '"' ',' c) (hne : f ≠ []) :
    scanChars (dfltR ParseState.Neutral rows buf src) (f ++ more)
      = scanChars (dfltR ParseState.InField rows (buf ++ f) src) more := by
  cases f with
  | nil => exact absurd rfl hne
  | cons c cs =>
      have hc := h c (by simp)
      simp only [isSpecial, not_or] at hc
      obtain ⟨h1, h2, h3, h4⟩ := hc
      rw [List.cons_append]
      simp only [scanChars, step_Neutral_other rows buf src c h1 h2 h3 h4]
      rw [if_neg (by simp [dfltR])]
      rw [scan_clean_InField cs rows (buf ++ [c]) src more fun x hx => h x (by simp [hx])]
      simp

theorem scan_quoted (f : List Char) :
    ∀ (rows : List (List Char)) (buf : List Char) (src : Source) (more : List Char),
      scanChars (dfltR ParseState.InQuotedField rows buf src) (escapeQuotes '"' f ++ more)
        = scanChars (dfltR ParseState.InQuotedField rows (buf ++ f) src) more := by
  induction f with
  | nil => intro rows buf src more; simp [escapeQuotes]
  | cons c cs ih =>
      intro rows buf src more
      by_cases hc : c = '"'
      · subst hc
        rw [show escapeQuotes '"' ('"' :: cs) ++ more
            = '"' :: ('"' :: (escapeQuotes '"' cs ++ more)) from by simp [escapeQuotes]]
        simp only [scanChars, step_IQF_quote]
        rw [if_neg (by simp [dfltR])]
        simp only [scanChars, step_Enc_quote]
        rw [if_neg (by simp [dfltR])]
        rw [ih rows (buf ++ ['"']) src more]
        simp
      · rw [show escapeQuotes '"' (c :: cs) ++ more
            = c :: (escapeQuotes '"' cs ++ more) from by simp [escapeQuotes, hc]]
        simp only [scanChars, step_IQF_other rows buf src c hc]
        rw [if_neg (by simp [dfltR])]
        rw [ih rows (buf ++ [c]) src more]
        simp

theorem scan_field_delim (f : List Char) (rows : List (List Char)) (src : Source)
    (more : List Char) :
    scanChars (dfltR ParseState.Neutral rows [] src) (encodeField '"' ',' f ++ (',' :: more))
      = scanChars (dfltR ParseState.Neutral (rows ++ [f]) [] src) more := by
  by_cases hq : needsQuote '"' ',' f
  · rw [show encodeField '"' ',' f = '"' :: (escapeQuotes '"' f ++ ['"']) from by
      simp [encodeField, hq]]
    rw [List.cons_append, List.append_assoc, List.singleton_append]
    simp only [scanChars, step_Neutral_quote]
    rw [if_neg (by simp [dfltR])]
    rw [scan_quoted f rows [] src ('"' :: ',' :: more)]
    simp only [scanChars, step_IQF_quote]
    rw [if_neg (by simp [dfltR])]
    simp only [scanChars, step_Enc_delim]
    rw [if_neg (by simp [dfltR])]
    simp
  · have hclean : ∀ c ∈ f, ¬ isSpecial '"' ',' c := fun c hc hsp => hq ⟨c, hc, hsp⟩
    rw [show encodeField '"' ',' f = f from by simp [encodeField, hq]]
    cases hf : f with
    | nil =>
        simp only [List.nil_append, scanChars, step_Neutral_delim]
        rw [if_neg (by simp [dfltR])]
    | cons c cs =>
        rw [← hf]
        rw [scan_clean_Neutral f rows [] src (',' :: more) hclean (by simp [hf])]
        simp only [scanChars, step_InField_delim]
        rw [if_neg (by simp [dfltR])]
        simp

theorem scan_field_nl (f : List Char) (rows : List (List Char)) (src : Source)
    (more : List Char) :
    scanChars (dfltR ParseState.Neutral rows [] src) (encodeField '"' ',' f ++ ('\n' :: more))
      = (dfltR ParseState.EndOfRow (rows ++ [f]) [] src, some more) := by
  by_cases hq : needsQuote '"' ',' f
  · rw [show encodeField '"' ',' f = '"' :: (escapeQuotes '"' f ++ ['"']) from by
      simp [encodeField, hq]]
    rw [List.cons_append, List.append_assoc, List.singleton_append]
    simp only [scanChars, step_Neutral_quote]
    rw [if_neg (by simp [dfltR])]
    rw [scan_quoted f rows [] src ('"' :: '\n' :: more)]
    simp only [scanChars, step_IQF_quote]
    rw [if_neg (by simp [dfltR])]
    simp only [scanChars, step_Enc_nl]
    rw [if_pos (by simp [dfltR])]
    simp
  · have hclean : ∀ c ∈ f, ¬ isSpecial '"' ',' c := fun c hc hsp => hq ⟨c, hc, hsp⟩
    rw [show encodeField '"' ',' f = f from by simp [encodeField, hq]]
    cases hf : f with
    | nil =>
        simp only [List.nil_append, scanChars, step_Neutral_nl]
        rw [if_pos (by simp [dfltR])]
    | cons c cs =>
        rw [← hf]
        rw [scan_clean_Neutral f rows [] src ('\n' :: more) hclean (by simp [hf])]
        simp only [scanChars, step_InField_nl]
        rw [if_pos (by simp [dfltR])]
        simp

theorem scan_field_end (f : List Char) (rows : List (List Char)) (src : Source) :
    ∃ st, scanChars (dfltR ParseState.Neutral rows [] src) (encodeField '"' ',' f)
      = (dfltR st rows f src, none) ∧ st ≠ ParseState.EndOfRow := by
  by_cases hq : needsQuote '"' ',' f
  · refine ⟨ParseState.EncounteredQuoteInQuotedField, ?_, by simp⟩
    rw [show encodeField '"' ',' f = '"' :: (escapeQuotes '"' f ++ ['"']) from by
      simp [encodeField, hq]]
    simp only [scanChars, step_Neutral_quote]
    rw [if_neg (by simp [dfltR])]
    rw [scan_quoted f rows [] src ['"']]
    simp only [scanChars, step_IQF_quote]
    rw [if_neg (by simp [dfltR])]
    simp [scanChars]
  · have hclean : ∀ c ∈ f, ¬ isSpecial '"' ',' c := fun c hc hsp => hq ⟨c, hc, hsp⟩
    rw [show encodeField '"' ',' f = f from by simp [encodeField, hq]]
    cases hf : f with
    | nil => exact ⟨ParseState.Neutral, by simp [scanChars], by simp⟩
    | cons c cs =>
        refine ⟨ParseState.InField, ?_, by simp⟩
        rw [← hf]
        have := scan_clean_Neutral f rows [] src [] hclean (by simp [hf])
        rw [List.append_nil] at this
        rw [this]
        simp [scanChars]

/-! ### Row-level scanning and the round trip -/

theorem rowChars_cons_ne (q d : Char) (f : List Char) (rest : List (List Char))
    (h : rest ≠ []) :
    rowChars q d (f :: rest) = encodeField q d f ++ (d :: rowChars q d rest) := by
  cases rest with
  | nil => exact absurd rfl h
  | cons g fs => rfl

theorem encodeField_ne_nil (q d : Char) (f : List Char) (h : f ≠ []) :
    encodeField q d f ≠ [] := by
  by_cases hq : needsQuote q d f <;> simp [encodeField, hq, h]

theorem rowChars_concat_ne_nil (q d : Char) (fs : List (List Char)) (f : List Char)
    (h : f ≠ []) : rowChars q d (fs ++ [f]) ≠ [] := by
  cases fs with
  | nil => simpa [rowChars, rowTailChars] using encodeField_ne_nil q d f h
  | cons g gs =>
      cases hgs : gs ++ [f] with
      | nil => simp at hgs
      | cons h1 t1 =>
          rw [show (g :: gs) ++ [f] = g :: (gs ++ [f]) from rfl, hgs]
          simp [rowChars, rowTailChars]

theorem dfltR_input (st : ParseState) (rows : List (List Char)) (buf : List Char)
    (src : Source) : (dfltR st rows buf src).input_reader = src := rfl

theorem resetRow_dfltR (st : ParseState) (rows : List (List Char)) (buf : List Char)
    (src : Source) :
    resetRow (dfltR st rows buf src) = dfltR ParseState.Neutral [] buf src := rfl

theorem next_row_empty (st : ParseState) (rd : List (List Char)) (buf : List Char) :
    next_row (dfltR st rd buf ⟨[], none⟩)
      = (none, dfltR ParseState.Neutral [] buf ⟨[], none⟩) := by
  rw [next_row_eq_spec]
  simp [next_row_spec, resetRow_dfltR, dfltR_input, scanChars]

theorem scan_row_nl (fs : List (List Char)) :
    ∀ (f : List Char) (rows : List (List Char)) (src : Source) (more : List Char),
      scanChars (dfltR ParseState.Neutral rows [] src)
          (rowChars '"' ',' (f :: fs) ++ ('\n' :: more))
        = (dfltR ParseState.EndOfRow (rows ++ (f :: fs)) [] src, some more) := by
  induction fs with
  | nil =>
      intro f rows src more
      simpa [rowChars, rowTailChars] using scan_field_nl f rows src more
  | cons g gs ih =>
      intro f rows src more
      rw [rowChars_cons_ne '"' ',' f (g :: gs) (by simp)]
      rw [List.append_assoc, List.cons_append]
      rw [scan_field_delim]
      rw [ih g (rows ++ [f]) src more]
      simp

theorem scan_row_end (fs : List (List Char)) :
    ∀ (f : List Char) (rows : List (List Char)) (src : Source),
      ∃ st, scanChars (dfltR ParseState.Neutral rows [] src) (rowChars '"' ',' (fs ++ [f]))
        = (dfltR st (rows ++ fs) f src, none) ∧ st ≠ ParseState.EndOfRow := by
  induction fs with
  | nil =>
      intro f rows src
      obtain ⟨st, h1, h2⟩ := scan_field_end f rows src
      exact ⟨st, by simpa [rowChars, rowTailChars] using h1, h2⟩
  | cons g gs ih =>
      intro f rows src
      rw [show (g :: gs) ++ [f] = g :: (gs ++ [f]) from rfl]
      rw [rowChars_cons_ne '"' ',' g (gs ++ [f]) (by simp)]
      rw [scan_field_delim]
      obtain ⟨st, h1, h2⟩ := ih f (rows ++ [g]) src
      exact ⟨st, by simpa using h1, h2⟩

theorem csvChars_cons_ne (q d : Char) (nl : List Char) (row : List (List Char))
    (rows : List (List (List Char))) (h : rows ≠ []) :
    csvChars q d nl (row :: rows) = rowChars q d row ++ (nl ++ csvChars q d nl rows) := by
  cases rows with
  | nil => exact absurd rfl h
  | cons r2 rs => simp [csvChars, csvTailChars]

/-- Calling `next_row` on a reader whose data starts with the rendering of a
nonempty row followed by a newline returns exactly that row and leaves the
rest of the data unread. -/
theorem next_row_nlrow (f : List Char) (fs : List (List Char)) (st : ParseState)
    (rd : List (List Char)) (more : List Char) :
    next_row (dfltR st rd [] ⟨rowChars '"' ',' (f :: fs) ++ ('\n' :: more), none⟩)
      = (some (Except.ok (f :: fs)),
         dfltR ParseState.EndOfRow (f :: fs) [] ⟨more, none⟩) := by
  rw [next_row_eq_spec]
  have hsc := scan_row_nl fs f []
    ⟨rowChars '"' ',' (f :: fs) ++ ('\n' :: more), none⟩ more
  simp only [next_row_spec, resetRow_dfltR, dfltR_input]
  rw [hsc]
  simp [dfltR]

/-- Calling `next_row` on a reader whose data is exactly the rendering of a
row with a nonempty last field (and no trailing newline) returns that row,
flushing the last field at end of input. -/
theorem next_row_lastrow (fs : List (List Char)) (f : List Char) (hf : f ≠ [])
    (st : ParseState) (rd : List (List Char)) :
    next_row (dfltR st rd [] ⟨rowChars '"' ',' (fs ++ [f]), none⟩)
      = (some (Except.ok (fs ++ [f])),
         dfltR ParseState.Neutral (fs ++ [f]) [] ⟨[], none⟩) := by
  rw [next_row_eq_spec]
  obtain ⟨st1, hsc, _⟩ := scan_row_end fs f [] ⟨rowChars '"' ',' (fs ++ [f]), none⟩
  simp only [next_row_spec, resetRow_dfltR, dfltR_input]
  rw [hsc]
  have hdne : rowChars '"' ',' (fs ++ [f]) ≠ [] := rowChars_concat_ne_nil '"' ',' fs f hf
  simp [dfltR, hdne, hf, new_column]

/-- Unfolding one successful `next_row` call of `readAllRows`. -/
theorem readAllRows_step (fuel : Nat) (r : SimpleCsvReader) (row : List (List Char))
    (r' : SimpleCsvReader) (h : next_row r = (some (Except.ok row), r')) :
    readAllRows (fuel + 1) r = row :: readAllRows fuel r' := by
  simp [readAllRows, h]

/-- Reading back a default-options CSV rendering recovers every row, provided
no row is empty and the last row does not end in an empty field.  The scanner
state and stale row buffer of the reader are irrelevant because `next_row`
resets them. -/
theorem readAll_csv (rows : List (List (List Char))) :
    ∀ (st : ParseState) (rd : List (List Char)),
      (∀ row ∈ rows, row ≠ []) →
      (∀ row, rows.getLast? = some row → row.getLast? ≠ some []) →
      readAllRows (rows.length + 1)
          (dfltR st rd [] ⟨csvChars '"' ',' ['\n'] rows, none⟩)
        = rows := by
  induction rows with
  | nil =>
      intro st rd _ _
      simp [csvChars, readAllRows, next_row_empty]
  | cons row rows ih =>
      intro st rd h1 h2
      have hrow : row ≠ [] := h1 row (by simp)
      cases rows with
      | nil =>
          obtain hrow2 | ⟨fs, f, hfs⟩ := row.eq_nil_or_concat
          · exact absurd hrow2 hrow
          · rw [List.concat_eq_append] at hfs
            subst hfs
            have hf : f ≠ [] := by
              intro hf0
              exact h2 (fs ++ [f]) (by simp) (by simp [List.getLast?_concat, hf0])
            rw [show csvChars '"' ',' ['\n'] [fs ++ [f]] = rowChars '"' ',' (fs ++ [f]) from by
              simp [csvChars, csvTailChars]]
            rw [show ([fs ++ [f]] : List (List (List Char))).length + 1 = 1 + 1 from by simp]
            rw [readAllRows_step 1 _ _ _ (next_row_lastrow fs f hf st rd)]
            simp [readAllRows, next_row_empty]
      | cons row2 rows2 =>
          obtain ⟨f, fs, hfs⟩ : ∃ f fs, row = f :: fs := by
            cases row with
            | nil => exact absurd rfl hrow
            | cons a b => exact ⟨a, b, rfl⟩
          subst hfs
          rw [csvChars_cons_ne '"' ',' ['\n'] (f :: fs) (row2 :: rows2) (by simp)]
          rw [show (['\n'] ++ csvChars '"' ',' ['\n'] (row2 :: rows2))
              = '\n' :: csvChars '"' ',' ['\n'] (row2 :: rows2) from rfl]
          rw [show ((f :: fs) :: row2 :: rows2).length + 1
              = ((row2 :: rows2).length + 1) + 1 from by simp]
          rw [readAllRows_step _ _ _ _ (next_row_nlrow f fs st rd
            (csvChars '"' ',' ['\n'] (row2 :: rows2)))]
          have h1' : ∀ r ∈ (row2 :: rows2), r ≠ [] := fun r hr => h1 r (by simp [hr])
          have h2' : ∀ r, (row2 :: rows2).getLast? = some r → r.getLast? ≠ some [] := by
            intro r hr
            refine h2 r ?_
            rw [List.getLast?_cons_cons]
            exact hr
          rw [ih ParseState.EndOfRow (f :: fs) h1' h2']

/-! ### Sink-failure lemmas for the writer -/

/-- Relation between a sink before and after a writer operation: the accepted
characters only grow (no rollback), the failure point is unchanged, and no
character is accepted past the failure point. -/
def SinkStep (s s' : Sink) : Prop :=
  (∃ extra, s'.written = s.written ++ extra)
  ∧ s'.failAt = s.failAt
  ∧ (∀ n, s.failAt = some n → s'.written.length ≤ max n s.written.length)

theorem sinkStep_refl (s : Sink) : SinkStep s s :=
  ⟨⟨[], by simp⟩, rfl, fun _ _ => le_max_right _ _⟩

theorem sinkStep_trans {a b c : Sink} (h1 : SinkStep a b) (h2 : SinkStep b c) :
    SinkStep a c := by
  obtain ⟨⟨e1, he1⟩, hf1, hl1⟩ := h1
  obtain ⟨⟨e2, he2⟩, hf2, hl2⟩ := h2
  refine ⟨⟨e1 ++ e2, by rw [he2, he1, List.append_assoc]⟩, hf2.trans hf1, ?_⟩
  intro n hn
  have hb := hl1 n hn
  have hc := hl2 n (hf1.trans hn)
  exact le_trans hc (max_le (le_max_left _ _) hb)

theorem push_sinkStep (s : Sink) (bs : List Char) : SinkStep s (s.push bs).2 := by
  obtain ⟨w, fa⟩ := s
  cases fa with
  | none =>
      refine ⟨⟨bs, ?_⟩, ?_, ?_⟩
      · simp [Sink.push]
      · simp [Sink.push]
      · intro m hm; simp at hm
  | some n =>
      by_cases hle : w.length + bs.length ≤ n
      · refine ⟨⟨bs, ?_⟩, ?_, ?_⟩
        · simp [Sink.push, hle]
        · simp [Sink.push, hle]
        · intro m hm
          simp only at hm
          obtain rfl : n = m := Option.some.inj hm
          simp [Sink.push, hle]
          try omega
      · refine ⟨⟨bs.take (n - w.length), ?_⟩, ?_, ?_⟩
        · simp [Sink.push, hle]
        · simp [Sink.push, hle]
        · intro m hm
          simp only at hm
          obtain rfl : n = m := Option.some.inj hm
          simp [Sink.push, hle, List.length_take]
          try omega

theorem tryThen_sinkStep {s : Sink} (x : Except Nat Unit × Sink)
    (k : Sink → Except Nat Unit × Sink)
    (hx : SinkStep s x.2) (hk : ∀ s', SinkStep s' (k s').2) :
    SinkStep s (tryThen x k).2 := by
  rcases x with ⟨res, s'⟩
  cases res with
  | error e => exact hx
  | ok u => exact sinkStep_trans hx (hk s')

theorem write_quoted_tail_sinkStep (q : Char) (f : List Char) :
    ∀ s : Sink, SinkStep s (write_quoted_tail q s f).2 := by
  induction f with
  | nil => intro s; exact push_sinkStep s [q]
  | cons c cs ih =>
      intro s
      simp only [write_quoted_tail]
      refine tryThen_sinkStep _ _ ?_ (fun s1 => ih s1)
      by_cases hc : c = q
      · rw [if_pos hc]; exact push_sinkStep s [c, c]
      · rw [if_neg hc]; exact push_sinkStep s [c]

theorem write_field_from_sinkStep (q d : Char) (column : List Char) :
    ∀ (cs : List Char) (i : Nat) (s : Sink),
      SinkStep s (write_field_from q d column s cs i).2 := by
  intro cs
  induction cs with
  | nil => intro i s; exact push_sinkStep s column
  | cons c cs ih =>
      intro i s
      simp only [write_field_from]
      by_cases hsp : c = q ∨ c = d ∨ c = '\n' ∨ c = '\r'
      · rw [if_pos hsp]
        refine tryThen_sinkStep _ _ (push_sinkStep s [q]) (fun s1 => ?_)
        exact tryThen_sinkStep _ _ (push_sinkStep s1 (column.take i))
          (fun s2 => write_quoted_tail_sinkStep q (c :: cs) s2)
      · rw [if_neg hsp]
        exact ih (i + 1) s

theorem write_columns_sinkStep (q d : Char) :
    ∀ (cols : List (List Char)) (n : Nat) (s : Sink),
      SinkStep s (write_columns q d s cols n).2 := by
  intro cols
  induction cols with
  | nil => intro n s; exact sinkStep_refl s
  | cons col rest ih =>
      intro n s
      simp only [write_columns]
      refine tryThen_sinkStep _ _ ?_ (fun s1 => ?_)
      · by_cases hn : n = 0
        · rw [if_pos hn]; exact sinkStep_refl s
        · rw [if_neg hn]; exact push_sinkStep s [d]
      · exact tryThen_sinkStep _ _ (write_field_from_sinkStep q d col col 0 s1)
          (fun s2 => ih (n + 1) s2)

theorem write_sinkStep (w : SimpleCsvWriter) (row : List (List Char)) :
    SinkStep w.writer ((w.write row).2).writer := by
  simp only [SimpleCsvWriter.write]
  have hstep : SinkStep w.writer
      (tryThen (if w.row_written then w.writer.push (newlineChars w.options.newline_type)
                else (Except.ok (), w.writer)) fun s' =>
        write_columns w.options.text_enclosure w.options.delimiter s' row 0).2 := by
    refine tryThen_sinkStep _ _ ?_ (fun s1 => write_columns_sinkStep _ _ row 0 s1)
    by_cases hrw : w.row_written
    · rw [if_pos hrw]; exact push_sinkStep w.writer _
    · rw [if_neg hrw]; exact sinkStep_refl w.writer
  rcases hp : tryThen (if w.row_written then w.writer.push (newlineChars w.options.newline_type)
      else (Except.ok (), w.writer)) fun s' =>
        write_columns w.options.text_enclosure w.options.delimiter s' row 0 with ⟨res, s2⟩
  rw [hp] at hstep
  cases res with
  | error e => exact hstep
  | ok u => exact hstep

theorem write_all_sinkStep (rows : List (List (List Char))) :
    ∀ w : SimpleCsvWriter, SinkStep w.writer ((w.write_all rows).2).writer := by
  induction rows with
  | nil => intro w; exact sinkStep_refl w.writer
  | cons row rest ih =>
      intro w
      simp only [SimpleCsvWriter.write_all]
      rcases hp : w.write row with ⟨res, w1⟩
      have h1 : SinkStep w.writer w1.writer := by
        rw [show w1 = (w.write row).2 from by rw [hp]]
        exact write_sinkStep w row
      cases res with
      | error e => exact h1
      | ok u => exact sinkStep_trans h1 (ih w1)


/-! ### Remaining helpers -/

theorem next_row_exhausted (r : SimpleCsvReader) (h : r.input_reader = ⟨[], none⟩) :
    (next_row r).1 = none := by
  rw [next_row_eq_spec]
  simp [next_row_spec, resetRow, h, scanChars]

theorem step_Neutral_cr (rows : List (List Char)) (buf : List Char) (src : Source) :
    process_char (dfltR ParseState.Neutral rows buf src) '\r'
      = dfltR ParseState.Neutral rows buf src := by
  simp [process_char, dfltR, defaultReaderOptions]

theorem scan_cr (l : List Char) :
    ∀ (rows : List (List Char)) (buf : List Char) (src : Source),
      (∀ c ∈ l, c = '\r') →
      scanChars (dfltR ParseState.Neutral rows buf src) l
        = (dfltR ParseState.Neutral rows buf src, none) := by
  induction l with
  | nil => intro rows buf src _; rfl
  | cons c cs ih =>
      intro rows buf src h
      obtain rfl : c = '\r' := h c (by simp)
      simp only [scanChars, step_Neutral_cr]
      rw [if_neg (by simp [dfltR])]
      exact ih rows buf src fun x hx => h x (by simp [hx])

/-! ### Error propagation on a failing sink

`CapBehaves f out` characterizes a writer step `f` whose full (uncapped)
emission is `out`, on a sink capped at `n` that has not yet reached its
failure point: if the emission still fits, the step succeeds and emits it all;
if it does not fit, the sink's error is returned to the caller.  This is what
distinguishes the embedded writer (which aborts on the first failed push and
returns the error) from a hypothetical writer that swallowed sink errors. -/
def CapBehaves (f : Sink → Except Nat Unit × Sink) (out : List Char) : Prop :=
  ∀ (w : List Char) (n : Nat), w.length ≤ n →
    (w.length + out.length ≤ n →
        f ⟨w, some n⟩ = (Except.ok (), ⟨w ++ out, some n⟩))
    ∧ (n < w.length + out.length → (f ⟨w, some n⟩).1 = Except.error 0)

theorem capBehaves_push (bs : List Char) : CapBehaves (fun s => s.push bs) bs := by
  intro w n hw
  constructor
  · intro hfit
    simp [Sink.push, hfit]
  · intro hover
    have hnot : ¬ (w.length + bs.length ≤ n) := by omega
    simp [Sink.push, hnot]

theorem capBehaves_pure : CapBehaves (fun s => (Except.ok (), s)) [] := by
  intro w n hw
  constructor
  · intro _; simp
  · intro hover
    simp at hover
    exact absurd hover (by omega)

theorem capBehaves_tryThen (f1 k : Sink → Except Nat Unit × Sink)
    (out1 out2 : List Char) (h1 : CapBehaves f1 out1) (hk : CapBehaves k out2) :
    CapBehaves (fun s => tryThen (f1 s) k) (out1 ++ out2) := by
  intro w n hw
  have hlen : (out1 ++ out2).length = out1.length + out2.length := by simp
  constructor
  · intro hfit
    have hfit1 : w.length + out1.length ≤ n := by omega
    have hw1 : (w ++ out1).length ≤ n := by simp; omega
    have hfit2 : (w ++ out1).length + out2.length ≤ n := by simp; omega
    have hk2 := (hk (w ++ out1) n hw1).1 hfit2
    calc tryThen (f1 ⟨w, some n⟩) k
        = tryThen (Except.ok (), (⟨w ++ out1, some n⟩ : Sink)) k := by
          rw [(h1 w n hw).1 hfit1]
      _ = k ⟨w ++ out1, some n⟩ := rfl
      _ = (Except.ok (), ⟨(w ++ out1) ++ out2, some n⟩) := hk2
      _ = (Except.ok (), ⟨w ++ (out1 ++ out2), some n⟩) := by
          simp [List.append_assoc]
  · intro hover
    by_cases h1over : n < w.length + out1.length
    · have he := (h1 w n hw).2 h1over
      show (tryThen (f1 ⟨w, some n⟩) k).1 = Except.error 0
      rcases hp : f1 ⟨w, some n⟩ with ⟨res, s1⟩
      rw [hp] at he
      simp only at he
      subst he
      rfl
    · have hfit1 : w.length + out1.length ≤ n := by omega
      have hw1 : (w ++ out1).length ≤ n := by simp; omega
      have hover2 : n < (w ++ out1).length + out2.length := by simp; omega
      calc (tryThen (f1 ⟨w, some n⟩) k).1
          = (tryThen (Except.ok (), (⟨w ++ out1, some n⟩ : Sink)) k).1 := by
            rw [(h1 w n hw).1 hfit1]
        _ = (k ⟨w ++ out1, some n⟩).1 := rfl
        _ = Except.error 0 := (hk (w ++ out1) n hw1).2 hover2

theorem capBehaves_write_quoted_tail (q : Char) (f : List Char) :
    CapBehaves (fun s => write_quoted_tail q s f) (escapeQuotes q f ++ [q]) := by
  induction f with
  | nil =>
      have h := capBehaves_push [q]
      simpa [escapeQuotes] using h
  | cons c cs ih =>
      have heq : (fun s => write_quoted_tail q s (c :: cs))
          = fun s => tryThen (if c = q then s.push [c, c] else s.push [c])
              (fun s' => write_quoted_tail q s' cs) := by
        funext s; rw [write_quoted_tail]
      have hstep : CapBehaves (fun s => if c = q then Sink.push s [c, c] else Sink.push s [c])
          (if c = q then [c, c] else [c]) := by
        by_cases hc : c = q
        · simpa [hc] using capBehaves_push [c, c]
        · simpa [hc] using capBehaves_push [c]
      rw [heq, show escapeQuotes q (c :: cs) ++ [q]
          = (if c = q then [c, c] else [c]) ++ (escapeQuotes q cs ++ [q]) from by
            simp [escapeQuotes]]
      exact capBehaves_tryThen _ _ _ _ hstep ih

theorem capBehaves_write_field_from (q d : Char) :
    ∀ (cs pre : List Char), (∀ c ∈ pre, ¬ isSpecial q d c) →
      CapBehaves (fun s => write_field_from q d (pre ++ cs) s cs pre.length)
        (encodeField q d (pre ++ cs)) := by
  intro cs
  induction cs with
  | nil =>
      intro pre hpre
      have hnq : ¬ needsQuote q d pre := fun ⟨c, hc, hsp⟩ => hpre c hc hsp
      have heq : (fun s => write_field_from q d (pre ++ []) s [] pre.length)
          = fun s => s.push (pre ++ []) := by
        funext s; rw [write_field_from]
      rw [heq, show encodeField q d (pre ++ []) = pre ++ [] from by
        simp [encodeField, hnq]]
      exact capBehaves_push (pre ++ [])
  | cons c cs ih =>
      intro pre hpre
      by_cases hsp : isSpecial q d c
      · have hq : needsQuote q d (pre ++ c :: cs) := ⟨c, by simp, hsp⟩
        have htake : (pre ++ c :: cs).take pre.length = pre := List.take_left pre (c :: cs)
        have hpreq : ∀ x ∈ pre, x ≠ q := fun x hx hxq => hpre x hx (Or.inl hxq)
        have heq : (fun s => write_field_from q d (pre ++ c :: cs) s (c :: cs) pre.length)
            = fun s => tryThen (s.push [q]) (fun s' =>
                tryThen (s'.push ((pre ++ c :: cs).take pre.length)) (fun s'' =>
                  write_quoted_tail q s'' (c :: cs))) := by
          funext s
          rw [write_field_from,
            if_pos (show c = q ∨ c = d ∨ c = '\n' ∨ c = '\r' from hsp)]
        rw [heq, show encodeField q d (pre ++ c :: cs)
            = [q] ++ (pre ++ (escapeQuotes q (c :: cs) ++ [q])) from by
          simp [encodeField, hq, escapeQuotes_append,
            escapeQuotes_of_no_quote q pre hpreq]]
        refine capBehaves_tryThen _ _ _ _ (capBehaves_push [q]) ?_
        simp only [htake]
        exact capBehaves_tryThen _ _ _ _ (capBehaves_push pre)
          (capBehaves_write_quoted_tail q (c :: cs))
      · have hpre' : ∀ x ∈ pre ++ [c], ¬ isSpecial q d x := by
          intro x hx
          rcases List.mem_append.mp hx with h | h
          · exact hpre x h
          · rcases List.mem_singleton.mp h with rfl; exact hsp
        have hih := ih (pre ++ [c]) hpre'
        rw [List.append_assoc, List.singleton_append] at hih
        simp only [List.length_append, List.length_singleton] at hih
        have heq : (fun s => write_field_from q d (pre ++ c :: cs) s (c :: cs) pre.length)
            = fun s => write_field_from q d (pre ++ c :: cs) s cs (pre.length + 1) := by
          funext s
          rw [write_field_from,
            if_neg (show ¬ (c = q ∨ c = d ∨ c = '\n' ∨ c = '\r') from hsp)]
        rw [heq]
        exact hih

theorem capBehaves_write_columns_succ (q d : Char) :
    ∀ (cols : List (List Char)) (m : Nat),
      CapBehaves (fun s => write_columns q d s cols (m + 1)) (rowTailChars q d cols) := by
  intro cols
  induction cols with
  | nil =>
      intro m
      have heq : (fun s => write_columns q d s [] (m + 1))
          = fun s => (Except.ok (), s) := by
        funext s; rw [write_columns]
      rw [heq, show rowTailChars q d [] = [] from rfl]
      exact capBehaves_pure
  | cons col rest ih =>
      intro m
      have heq : (fun s => write_columns q d s (col :: rest) (m + 1))
          = fun s => tryThen (s.push [d]) (fun s' =>
              tryThen (write_field_from q d col s' col 0) (fun s'' =>
                write_columns q d s'' rest (m + 1 + 1))) := by
        funext s
        rw [write_columns, if_neg (Nat.succ_ne_zero m)]
      rw [heq, show rowTailChars q d (col :: rest)
          = [d] ++ (encodeField q d col ++ rowTailChars q d rest) from by
        simp [rowTailChars]]
      refine capBehaves_tryThen _ _ _ _ (capBehaves_push [d]) ?_
      have hf := capBehaves_write_field_from q d col [] (by simp)
      simp only [List.nil_append, List.length_nil] at hf
      exact capBehaves_tryThen _ _ _ _ hf (ih (m + 1))

theorem capBehaves_write_columns_zero (q d : Char) (cols : List (List Char)) :
    CapBehaves (fun s => write_columns q d s cols 0) (rowChars q d cols) := by
  cases cols with
  | nil =>
      have heq : (fun s => write_columns q d s [] 0) = fun s => (Except.ok (), s) := by
        funext s; rw [write_columns]
      rw [heq, show rowChars q d [] = [] from rfl]
      exact capBehaves_pure
  | cons col rest =>
      have heq : (fun s => write_columns q d s (col :: rest) 0)
          = fun s => tryThen (write_field_from q d col s col 0) (fun s'' =>
              write_columns q d s'' rest (0 + 1)) := by
        funext s
        rw [write_columns]
        simp [tryThen]
      rw [heq, show rowChars q d (col :: rest)
          = encodeField q d col ++ rowTailChars q d rest from rfl]
      have hf := capBehaves_write_field_from q d col [] (by simp)
      simp only [List.nil_append, List.length_nil] at hf
      exact capBehaves_tryThen _ _ _ _ hf (capBehaves_write_columns_succ q d rest 0)

/-- The full emission of one `write` call, for stating error propagation. -/
def writeEmission (w : SimpleCsvWriter) (row : List (List Char)) : List Char :=
  (if w.row_written then newlineChars w.options.newline_type else [])
    ++ rowChars w.options.text_enclosure w.options.delimiter row

/-- On a sink capped at `n` that has not yet reached its failure point:
`write` succeeds and emits everything when the emission fits, and returns the
sink's error to the caller when it does not. -/
theorem write_cap (w : SimpleCsvWriter) (n : Nat) (row : List (List Char))
    (hfa : w.writer.failAt = some n) (hlen : w.writer.written.length ≤ n) :
    (w.writer.written.length + (writeEmission w row).length ≤ n →
        w.write row = (Except.ok (),
          { w with writer := ⟨w.writer.written ++ writeEmission w row, some n⟩,
                   row_written := true }))
    ∧ (n < w.writer.written.length + (writeEmission w row).length →
        (w.write row).1 = Except.error 0) := by
  obtain ⟨opts, ⟨ww, fa⟩, rwr⟩ := w
  simp only at hfa hlen
  subst hfa
  have hstep : CapBehaves
      (fun s => if rwr = true then Sink.push s (newlineChars opts.newline_type)
                else (Except.ok (), s))
      (if rwr = true then newlineChars opts.newline_type else []) := by
    cases rwr
    · simpa using capBehaves_pure
    · simpa using capBehaves_push (newlineChars opts.newline_type)
  have hcomp := capBehaves_tryThen _ _ _ _ hstep
    (capBehaves_write_columns_zero opts.text_enclosure opts.delimiter row)
  have h := hcomp ww n hlen
  constructor
  · intro hfit
    have hok := h.1 hfit
    simp only at hok
    simp only [SimpleCsvWriter.write, writeEmission]
    rw [hok]
  · intro hover
    have herr := h.2 hover
    simp only at herr
    simp only [SimpleCsvWriter.write, writeEmission]
    rcases hp : tryThen
        (if ({ options := opts, writer := ⟨ww, some n⟩, row_written := rwr }
              : SimpleCsvWriter).row_written = true
         then Sink.push ⟨ww, some n⟩ (newlineChars opts.newline_type)
         else (Except.ok (), ⟨ww, some n⟩))
        (fun s' => write_columns opts.text_enclosure opts.delimiter s' row 0)
      with ⟨res, s2⟩
    rw [hp] at herr
    simp only at herr
    subst herr
    rfl

/-! ## Claims -/

/-- Claim C1, counterexample: writing the row `["1", ""]` and reading the
output back does not reproduce the row — the trailing empty field of the last
row is dropped, because the writer emits `1,` with no trailing newline and the
reader does not flush an empty buffer at end of input. -/
theorem c1_write_read_roundtrip_counterexample :
    readAllRows (([[['1'], []]] : List (List (List Char))).length + 1)
        (mkReader (((mkWriter ⟨[], none⟩).write_all [[['1'], []]]).2.writer.written))
      ≠ [[['1'], []]] := by decide

/-- Claim C1 (amended): for every list of rows whose fields are arbitrary text
(including fields containing the delimiter, the quote character, and newline
characters), writing all rows with the writer and then repeatedly calling
`next_row` on a reader fed the writer's output reproduces the original list of
rows exactly, under matching default options — provided every row has at
least one field and the last row's last field is nonempty. -/
theorem c1_write_read_roundtrip (rows : List (List (List Char)))
    (h1 : ∀ row ∈ rows, row ≠ [])
    (h2 : ∀ row, rows.getLast? = some row → row.getLast? ≠ some []) :
    readAllRows (rows.length + 1)
        (mkReader (((mkWriter ⟨[], none⟩).write_all rows).2.writer.written))
      = rows := by
  have hw := write_all_fresh_none defaultWriterOptions rows []
  rw [show mkWriter ⟨[], none⟩
      = (⟨defaultWriterOptions, ⟨[], none⟩, false⟩ : SimpleCsvWriter) from rfl]
  rw [hw]
  exact readAll_csv rows ParseState.Neutral [] h1 h2

/-- Concrete rows exercising delimiter, quote and newline characters for the
round-trip witness. -/
def c1rows : List (List (List Char)) :=
  [[['a', '\n', 'b'], ['c', ',', 'd']], [['e', '"', 'f']]]

/-- Claim C1, witness at `c1rows`. -/
theorem c1_write_read_roundtrip_witness :
    (∀ row ∈ c1rows, row ≠ [])
    ∧ (∀ row, c1rows.getLast? = some row → row.getLast? ≠ some [])
    ∧ readAllRows (c1rows.length + 1)
        (mkReader (((mkWriter ⟨[], none⟩).write_all c1rows).2.writer.written))
      = c1rows :=
  ⟨by decide, by decide, c1_write_read_roundtrip c1rows (by decide) (by decide)⟩

/-- Input `",,"` for claim C2. -/
def c2pair : List Char := [',', ',']

/-- Input `"1,2,3"` for claim C2. -/
def c2digits : List Char := ['1', ',', '2', ',', '3']

/-- Claim C2, counterexample: with default options the input `",,"` does not
parse to a three-element row of empty strings — the trailing empty field is
dropped at end of input, yielding only two empty fields. -/
theorem c2_empty_fields_counterexample :
    readAllRows 3 (mkReader c2pair) ≠ [[[], [], []]] := by decide

/-- Claim C2 (amended): with default options, parsing the input `",,"` yields
a single row that is a two-element list of empty strings (the pending third
empty field is not flushed at end of input), and parsing the input `"1,2,3"`
yields the single row `["1","2","3"]`. -/
theorem c2_empty_fields :
    readAllRows 3 (mkReader c2pair) = [[[], []]]
    ∧ readAllRows 3 (mkReader c2digits) = [[['1'], ['2'], ['3']]] := by decide

/-- Claim C3: `next_row` returns `none` exactly when the source was already
exhausted (no data and no pending error) before the call; if the source runs
out mid-row, the partial row — flushing the unterminated final field exactly
when the field buffer is nonempty — is returned once as `some (ok row)` and
the subsequent call returns `none`; a pending source failure is returned as
`some (error e)`. -/
theorem c3_next_row_contract (r : SimpleCsvReader) :
    ((next_row r).1 = none ↔ r.input_reader.data = [] ∧ r.input_reader.err = none)
    ∧ (∀ r1, scanChars (resetRow r) r.input_reader.data = (r1, none) →
        r.input_reader.data ≠ [] → r.input_reader.err = none →
        next_row r
            = (some (Except.ok
                  (if r1.column_buffer.isEmpty then r1 else new_column r1).row_data),
               { (if r1.column_buffer.isEmpty then r1 else new_column r1) with
                 input_reader := ⟨[], none⟩ })
          ∧ (next_row { (if r1.column_buffer.isEmpty then r1 else new_column r1) with
               input_reader := ⟨[], none⟩ }).1 = none)
    ∧ (∀ r1 e, scanChars (resetRow r) r.input_reader.data = (r1, none) →
        r.input_reader.err = some e →
        (next_row r).1 = some (Except.error e)) := by
  refine ⟨?_, ?_, ?_⟩
  · rw [next_row_eq_spec]
    unfold next_row_spec
    rcases hsc : scanChars (resetRow r) r.input_reader.data with ⟨r1, o⟩
    rcases o with _ | rest
    · rcases herr : r.input_reader.err with _ | e
      · by_cases hd : r.input_reader.data = [] <;> simp [hd, herr]
      · simp [herr]
    · constructor
      · intro hnone
        simp at hnone
      · rintro ⟨hd, _⟩
        rw [hd] at hsc
        simp [scanChars] at hsc
  · intro r1 hsc hd herr
    constructor
    · rw [next_row_eq_spec]
      unfold next_row_spec
      rw [hsc, herr]
      simp [hd]
    · exact next_row_exhausted _ rfl
  · intro r1 e hsc herr
    rw [next_row_eq_spec]
    unfold next_row_spec
    rw [hsc, herr]

/-- Claim C3, witness: on the input `"ab"` (exhausted mid-row, buffer
nonempty) the partial row `["ab"]` is returned and the next call gives
`none`; a reader with a pending error surfaces it as `some (error 7)`. -/
theorem c3_next_row_contract_witness :
    ((next_row (mkReader ['a', 'b'])).1 = some (Except.ok [['a', 'b']])
      ∧ (next_row (next_row (mkReader ['a', 'b'])).2).1 = none)
    ∧ (next_row (dfltR ParseState.Neutral [] [] ⟨[], some 7⟩)).1
        = some (Except.error 7) := by
  have h := (c3_next_row_contract (mkReader ['a', 'b'])).2.1
    (dfltR ParseState.InField [] ['a', 'b'] ⟨['a', 'b'], none⟩)
    (by decide) (by decide) (by decide)
  refine ⟨⟨?_, ?_⟩, ?_⟩
  · rw [h.1]; rfl
  · exact h.2
  · exact (c3_next_row_contract (dfltR ParseState.Neutral [] [] ⟨[], some 7⟩)).2.2
      (dfltR ParseState.Neutral [] [] ⟨[], some 7⟩) 7 rfl rfl

/-- Input `"1,2,3\r\n4,5,\"6"` for claim C4. -/
def c4input : List Char :=
  ['1', ',', '2', ',', '3', '\r', '\n', '4', ',', '5', ',', '"', '6']

/-- Claim C4: an unterminated quoted field at end of input is not an error:
parsing `"1,2,3\r\n4,5,\"6"` yields two successful rows, the second being
`["4","5","6"]`, and the next call signals a normal end of sequence. -/
theorem c4_unterminated_quote :
    (next_row (mkReader c4input)).1 = some (Except.ok [['1'], ['2'], ['3']])
    ∧ (next_row (next_row (mkReader c4input)).2).1
        = some (Except.ok [['4'], ['5'], ['6']])
    ∧ (next_row (next_row (next_row (mkReader c4input)).2).2).1 = none :=
  ⟨rfl, rfl, rfl⟩

/-- Input `"1,\"2\",3\r\n4,\"5\r\n\",6"` for claim C5. -/
def c5input : List Char :=
  ['1', ',', '"', '2', '"', ',', '3', '\r', '\n',
   '4', ',', '"', '5', '\r', '\n', '"', ',', '6']

/-- Claim C5: with default options, a `'\r'` encountered in states `Neutral`,
`InField` or `EncounteredQuoteInQuotedField` is discarded (the scanner is
unchanged), while inside a quoted field it is appended verbatim; parsing
`"1,\"2\",3\r\n4,\"5\r\n\",6"` yields two rows with the second row's middle
field equal to `"5\r\n"`. -/
theorem c5_carriage_return :
    (∀ r : SimpleCsvReader, r.options = defaultReaderOptions →
        (r.state = ParseState.Neutral ∨ r.state = ParseState.InField ∨
          r.state = ParseState.EncounteredQuoteInQuotedField) →
        process_char r '\r' = r)
    ∧ (∀ r : SimpleCsvReader, r.options = defaultReaderOptions →
        r.state = ParseState.InQuotedField →
        process_char r '\r' = { r with column_buffer := r.column_buffer ++ ['\r'] })
    ∧ readAllRows 3 (mkReader c5input)
        = [[['1'], ['2'], ['3']], [['4'], ['5', '\r', '\n'], ['6']]] := by
  refine ⟨?_, ?_, by decide⟩
  · intro r hopt hst
    obtain ⟨st, rows, buf, src, opts⟩ := r
    simp only at hopt hst
    subst hopt
    rcases hst with h | h | h <;> subst h <;>
      simp [process_char, defaultReaderOptions]
  · intro r hopt hst
    obtain ⟨st, rows, buf, src, opts⟩ := r
    simp only at hopt hst
    subst hopt
    subst hst
    simp [process_char, defaultReaderOptions]

/-- Claim C5, witness at concrete scanner states. -/
theorem c5_carriage_return_witness :
    process_char (dfltR ParseState.Neutral [['x']] ['y'] ⟨[], none⟩) '\r'
        = dfltR ParseState.Neutral [['x']] ['y'] ⟨[], none⟩
    ∧ process_char (dfltR ParseState.InQuotedField [] ['5'] ⟨[], none⟩) '\r'
        = { dfltR ParseState.InQuotedField [] ['5'] ⟨[], none⟩ with
            column_buffer :=
              (dfltR ParseState.InQuotedField [] ['5'] ⟨[], none⟩).column_buffer
                ++ ['\r'] } :=
  ⟨c5_carriage_return.1 _ rfl (Or.inl rfl),
   c5_carriage_return.2.1 _ rfl rfl⟩

/-- Input `"1,\"\"\"2\",3"` for claim C6. -/
def c6tripleQuote : List Char := ['1', ',', '"', '"', '"', '2', '"', ',', '3']

/-- Input `"4,5,\"6\"tail"` for claim C6. -/
def c6tail : List Char := ['4', ',', '5', ',', '"', '6', '"', 't', 'a', 'i', 'l']

/-- Claim C6: after a quote inside a quoted field, a second quote appends one
literal quote and returns to `InQuotedField`; any other character that is not
the delimiter, `'\n'` or `'\r'` is appended literally and scanning continues
in `InField`.  Hence `1,"""2",3` parses to `["1","\"2","3"]` and `4,5,"6"tail`
parses with final field `6tail`. -/
theorem c6_quote_after_quote :
    (∀ r : SimpleCsvReader, r.options = defaultReaderOptions →
        r.state = ParseState.EncounteredQuoteInQuotedField →
        process_char r '"'
          = { r with column_buffer := r.column_buffer ++ ['"'],
                     state := ParseState.InQuotedField })
    ∧ (∀ (r : SimpleCsvReader) (c : Char), r.options = defaultReaderOptions →
        r.state = ParseState.EncounteredQuoteInQuotedField →
        c ≠ '"' → c ≠ ',' → c ≠ '\n' → c ≠ '\r' →
        process_char r c
          = { r with column_buffer := r.column_buffer ++ [c],
                     state := ParseState.InField })
    ∧ readAllRows 2 (mkReader c6tripleQuote) = [[['1'], ['"', '2'], ['3']]]
    ∧ readAllRows 2 (mkReader c6tail)
        = [[['4'], ['5'], ['6', 't', 'a', 'i', 'l']]] := by
  refine ⟨?_, ?_, by decide, by decide⟩
  · intro r hopt hst
    obtain ⟨st, rows, buf, src, opts⟩ := r
    simp only at hopt hst
    subst hopt
    subst hst
    simp [process_char, defaultReaderOptions]
  · intro r c hopt hst h1 h2 h3 h4
    obtain ⟨st, rows, buf, src, opts⟩ := r
    simp only at hopt hst
    subst hopt
    subst hst
    simp [process_char, defaultReaderOptions, h1, h2, h3, h4]

/-- Claim C6, witness at a concrete scanner state. -/
theorem c6_quote_after_quote_witness :
    process_char (dfltR ParseState.EncounteredQuoteInQuotedField [] ['x'] ⟨[], none⟩) '"'
        = { dfltR ParseState.EncounteredQuoteInQuotedField [] ['x'] ⟨[], none⟩ with
            column_buffer := ['x'] ++ ['"'], state := ParseState.InQuotedField }
    ∧ process_char (dfltR ParseState.EncounteredQuoteInQuotedField [] ['x'] ⟨[], none⟩) 'z'
        = { dfltR ParseState.EncounteredQuoteInQuotedField [] ['x'] ⟨[], none⟩ with
            column_buffer := ['x'] ++ ['z'], state := ParseState.InField } :=
  ⟨c6_quote_after_quote.1 _ rfl rfl,
   c6_quote_after_quote.2.1 _ 'z' rfl rfl (by decide) (by decide) (by decide) (by decide)⟩

/-- Claim C7: on a sink that does not fail, `write` emits the configured line
terminator exactly when a row was written before, the delimiter before every
field except the first, and each field wrapped in the quote character exactly
when it contains the quote character, the delimiter, `'\n'` or `'\r'` (with
embedded quotes doubled, and quote-free fields copied unchanged) — i.e. the
emission described by `rowChars`/`encodeField`. -/
theorem c7_write_emission (w : SimpleCsvWriter) (row : List (List Char))
    (h : w.writer.failAt = none) :
    w.write row
      = (Except.ok (),
         { w with
           writer := ⟨w.writer.written
               ++ ((if w.row_written then newlineChars w.options.newline_type else [])
                   ++ rowChars w.options.text_enclosure w.options.delimiter row), none⟩,
           row_written := true }) := by
  obtain ⟨opts, ⟨ww, fa⟩, rwr⟩ := w
  simp only at h
  subst h
  exact write_none opts rwr row ww

/-- Claim C7, witness: a fresh default writer writing a row with quote and
plain fields. -/
theorem c7_write_emission_witness :
    (mkWriter ⟨[], none⟩).write [['a'], ['b', '"'], []]
      = (Except.ok (),
         { mkWriter ⟨[], none⟩ with
           writer := ⟨(mkWriter ⟨[], none⟩).writer.written
               ++ ((if (mkWriter ⟨[], none⟩).row_written
                    then newlineChars (mkWriter ⟨[], none⟩).options.newline_type
                    else [])
                   ++ rowChars (mkWriter ⟨[], none⟩).options.text_enclosure
                        (mkWriter ⟨[], none⟩).options.delimiter [['a'], ['b', '"'], []]),
               none⟩,
           row_written := true }) :=
  c7_write_emission (mkWriter ⟨[], none⟩) [['a'], ['b', '"'], []] rfl

/-- Claim C8: a sink failure during `write` or `write_all` is surfaced to the
caller — on a sink capped at its failure point, `write` returns the sink's
error exactly when the row's emission no longer fits, and succeeds emitting
everything when it does; when the first row's `write` fails, `write_all`
returns that error at once, writing no further rows; the characters already
accepted by the sink remain (the accepted list only grows — no rollback) and
nothing is written past the sink's failure point; `write_all` behaves exactly
like calling `write` on each row in order, stopping at the first error. -/
theorem c8_sink_failure :
    (∀ (w : SimpleCsvWriter) (row : List (List Char)),
        ∃ extra, ((w.write row).2).writer.written = w.writer.written ++ extra)
    ∧ (∀ (w : SimpleCsvWriter) (rows : List (List (List Char))),
        ∃ extra, ((w.write_all rows).2).writer.written = w.writer.written ++ extra)
    ∧ (∀ (w : SimpleCsvWriter) (n : Nat) (row : List (List Char)),
        w.writer.failAt = some n →
        ((w.write row).2).writer.written.length ≤ max n w.writer.written.length)
    ∧ (∀ w : SimpleCsvWriter, w.write_all [] = (Except.ok (), w))
    ∧ (∀ (w : SimpleCsvWriter) (row : List (List Char)) (rows : List (List (List Char))),
        w.write_all (row :: rows)
          = match w.write row with
            | (Except.error e, w') => (Except.error e, w')
            | (Except.ok _, w') => w'.write_all rows)
    ∧ (∀ (w : SimpleCsvWriter) (n : Nat) (row : List (List Char)),
        w.writer.failAt = some n → w.writer.written.length ≤ n →
        (w.writer.written.length + (writeEmission w row).length ≤ n →
            w.write row = (Except.ok (),
              { w with writer := ⟨w.writer.written ++ writeEmission w row, some n⟩,
                       row_written := true }))
        ∧ (n < w.writer.written.length + (writeEmission w row).length →
            (w.write row).1 = Except.error 0))
    ∧ (∀ (w : SimpleCsvWriter) (row : List (List Char))
          (rows : List (List (List Char))) (e : Nat) (w' : SimpleCsvWriter),
        w.write row = (Except.error e, w') →
        w.write_all (row :: rows) = (Except.error e, w')) := by
  refine ⟨?_, ?_, ?_, ?_, ?_, ?_, ?_⟩
  · intro w row; exact (write_sinkStep w row).1
  · intro w rows; exact (write_all_sinkStep rows w).1
  · intro w n row h; exact (write_sinkStep w row).2.2 n h
  · intro w; rfl
  · intro w row rows; rfl
  · intro w n row hfa hlen; exact write_cap w n row hfa hlen
  · intro w row rows e w' h
    simp [SimpleCsvWriter.write_all, h]

/-- Claim C8, witness: a sink that fails after three characters makes `write`
of a five-character row return the error (with the three accepted characters
kept), makes `write_all` stop at that first row, and a roomier sink lets the
same writer succeed with the full emission. -/
theorem c8_sink_failure_witness :
    (∃ extra, (((mkWriter ⟨[], some 3⟩).write [['1', '2'], ['3', '4']]).2).writer.written
        = (mkWriter ⟨[], some 3⟩).writer.written ++ extra)
    ∧ (((mkWriter ⟨[], some 3⟩).write [['1', '2'], ['3', '4']]).2).writer.written.length
        ≤ max 3 (mkWriter ⟨[], some 3⟩).writer.written.length
    ∧ ((mkWriter ⟨[], some 3⟩).write [['1', '2'], ['3', '4']]).1 = Except.error 0
    ∧ (mkWriter ⟨[], some 3⟩).write_all [[['1', '2'], ['3', '4']], [['x']]]
        = (Except.error 0, ⟨defaultWriterOptions, ⟨['1', '2', ','], some 3⟩, false⟩)
    ∧ (mkWriter ⟨[], some 9⟩).write [['a'], ['b']]
        = (Except.ok (),
           { mkWriter ⟨[], some 9⟩ with
             writer := ⟨(mkWriter ⟨[], some 9⟩).writer.written
                 ++ writeEmission (mkWriter ⟨[], some 9⟩) [['a'], ['b']], some 9⟩,
             row_written := true }) :=
  ⟨c8_sink_failure.1 (mkWriter ⟨[], some 3⟩) [['1', '2'], ['3', '4']],
   c8_sink_failure.2.2.1 (mkWriter ⟨[], some 3⟩) 3 [['1', '2'], ['3', '4']] rfl,
   (c8_sink_failure.2.2.2.2.2.1 (mkWriter ⟨[], some 3⟩) 3 [['1', '2'], ['3', '4']]
       rfl (by decide)).2 (by decide),
   c8_sink_failure.2.2.2.2.2.2 (mkWriter ⟨[], some 3⟩) [['1', '2'], ['3', '4']]
       [[['x']]] 0 ⟨defaultWriterOptions, ⟨['1', '2', ','], some 3⟩, false⟩ rfl,
   (c8_sink_failure.2.2.2.2.2.1 (mkWriter ⟨[], some 9⟩) 9 [['a'], ['b']]
       rfl (by decide)).1 (by decide)⟩

/-- Claim C9: with default options, parsing `"1,2,"` yields `["1","2"]` while
parsing `"1,2,\n"` yields `["1","2",""]`: at end of input the pending field is
flushed only when its buffer is nonempty, whereas a newline in `Neutral` state
always flushes, pushing an empty field even with an empty buffer. -/
theorem c9_eof_flush :
    readAllRows 3 (mkReader ['1', ',', '2', ',']) = [[['1'], ['2']]]
    ∧ readAllRows 3 (mkReader ['1', ',', '2', ',', '\n']) = [[['1'], ['2'], []]]
    ∧ (∀ r : SimpleCsvReader, r.options = defaultReaderOptions →
        r.state = ParseState.Neutral → r.column_buffer = [] →
        process_char r '\n'
          = { r with row_data := r.row_data ++ [[]], state := ParseState.EndOfRow }) := by
  refine ⟨by decide, by decide, ?_⟩
  intro r hopt hst hbuf
  obtain ⟨st, rows, buf, src, opts⟩ := r
  simp only at hopt hst hbuf
  subst hopt
  subst hst
  subst hbuf
  simp [process_char, new_column, defaultReaderOptions]

/-- Claim C9, witness at a concrete scanner state. -/
theorem c9_eof_flush_witness :
    process_char (dfltR ParseState.Neutral [['1'], ['2']] [] ⟨[], none⟩) '\n'
      = { dfltR ParseState.Neutral [['1'], ['2']] [] ⟨[], none⟩ with
          row_data := [['1'], ['2']] ++ [[]], state := ParseState.EndOfRow } :=
  c9_eof_flush.2.2 _ rfl rfl rfl

/-- Claim C10: a successful `next_row` call can return a row with zero fields:
on a nonempty input consisting only of `'\r'` characters (which are discarded
outside quotes) and no line terminator, `next_row` returns `some (ok [])` —
an empty list of fields, not `none` and not a one-empty-field row. -/
theorem c10_zero_field_row (l : List Char) (h1 : l ≠ []) (h2 : ∀ c ∈ l, c = '\r') :
    (next_row (mkReader l)).1 = some (Except.ok []) := by
  rw [next_row_eq_spec]
  have hsc := scan_cr l [] [] ⟨l, none⟩ h2
  simp only [next_row_spec]
  rw [show resetRow (mkReader l) = dfltR ParseState.Neutral [] [] ⟨l, none⟩ from rfl]
  rw [show (mkReader l).input_reader.data = l from rfl]
  rw [hsc]
  simp [h1, dfltR, mkReader, new_column]

/-- Claim C10, witness at the single-character input `"\r"`. -/
theorem c10_zero_field_row_witness :
    (['\r'] ≠ ([] : List Char))
    ∧ (next_row (mkReader ['\r'])).1 = some (Except.ok []) :=
  ⟨by decide, c10_zero_field_row ['\r'] (by decide) (by decide)⟩

end SimpleCsv
